import Mathlib

/-!
# Verification of the ascii_bg image-to-ASCII pipeline

A shallow embedding of the core of the ascii_bg repository
(character_sets.py, color_handler.py, image_processor.py, renderer.py,
converter.py), with theorems settling the frozen claims about it.

Python floats are modelled by rationals: every literal and arithmetic
operation relevant to the claims (multiplication by 0.5, division of small
integers, floor/truncation) is exact on the inputs considered, so the
rational model agrees with IEEE semantics there.  Python strings are kept
as Lean strings where parsing matters and as lists of characters where
grid/joining structure matters.
-/

namespace AsciiBg

/-- Python truncation toward zero. For a nonnegative rational it is the floor. -/
def pyTrunc (q : ℚ) : ℤ := if 0 ≤ q then ⌊q⌋ else ⌈q⌉

/-- Clamping of a value to the interval [0, 1], as done by
max(0.0, min(1.0, brightness)) in character_sets.py.  Written with
conditionals (pointwise equal to the max/min form) so that the kernel can
evaluate it on concrete rationals. -/
def clamp01 (v : ℚ) : ℚ := if v ≤ 0 then 0 else if 1 ≤ v then 1 else v

theorem pyTrunc_of_nonneg (q : ℚ) (h : 0 ≤ q) : pyTrunc q = ⌊q⌋ := by
  simp [pyTrunc, h]

theorem clamp01_nonneg (v : ℚ) : 0 ≤ clamp01 v := by
  unfold clamp01
  split
  · exact le_rfl
  · split
    · exact zero_le_one
    · linarith

theorem clamp01_le_one (v : ℚ) : clamp01 v ≤ 1 := by
  unfold clamp01
  split
  · exact zero_le_one
  · split
    · exact le_rfl
    · linarith

theorem clamp01_of_mem (v : ℚ) (h0 : 0 ≤ v) (h1 : v ≤ 1) : clamp01 v = v := by
  unfold clamp01
  split
  · linarith
  · split
    · linarith
    · rfl

theorem clamp01_one_sub (v : ℚ) : clamp01 (1 - v) = 1 - clamp01 v := by
  unfold clamp01
  rcases lt_trichotomy v 0 with h | h | h
  · rw [if_neg (by linarith), if_pos (by linarith), if_pos (le_of_lt h)]
    norm_num
  · subst h; norm_num
  · rcases lt_trichotomy v 1 with h1 | h1 | h1
    · rw [if_neg (by linarith), if_neg (by linarith), if_neg (by linarith),
        if_neg (by linarith)]
    · subst h1; norm_num
    · rw [if_pos (by linarith), if_neg (by linarith), if_pos (by linarith)]
      norm_num

namespace CharacterSet

/-- character_sets.py, CharacterSet.get_char: clamp the brightness to
[0, 1], take index int(brightness * (self.length - 1)) and return
charset[index].  The character set is the charset field as a list of
characters; indexing is total via getD (for a non-empty charset the index
is always in range, as proved below). -/
def get_char (cs : List Char) (brightness : ℚ) : Char :=
  let b := clamp01 brightness
  let index := (pyTrunc (b * ((cs.length : ℚ) - 1))).toNat
  cs.getD index ' '

/-- character_sets.py, CharacterSet.invert: a new character set with the
reversed charset. -/
def invert (cs : List Char) : List Char := cs.reverse

/-- The index computed by get_char, exposed for reasoning. -/
def charIndex (cs : List Char) (brightness : ℚ) : ℕ :=
  (pyTrunc (clamp01 brightness * ((cs.length : ℚ) - 1))).toNat

theorem get_char_eq_getD (cs : List Char) (v : ℚ) :
    get_char cs v = cs.getD (charIndex cs v) ' ' := rfl

theorem charIndex_lt (cs : List Char) (h : cs ≠ []) (v : ℚ) :
    charIndex cs v < cs.length := by
  have hlen : 1 ≤ cs.length := List.length_pos.mpr h
  have hlt : charIndex cs v ≤ cs.length - 1 := by
    have hb0 := clamp01_nonneg v
    have hb1 := clamp01_le_one v
    have hN : (0 : ℚ) ≤ (cs.length : ℚ) - 1 := by
      have : (1 : ℚ) ≤ (cs.length : ℚ) := by exact_mod_cast hlen
      linarith
    have hmul : clamp01 v * ((cs.length : ℚ) - 1) ≤ (cs.length : ℚ) - 1 := by
      nlinarith
    have hnn : (0 : ℚ) ≤ clamp01 v * ((cs.length : ℚ) - 1) :=
      mul_nonneg hb0 hN
    unfold charIndex
    rw [pyTrunc_of_nonneg _ hnn]
    have hfl : ⌊clamp01 v * ((cs.length : ℚ) - 1)⌋ ≤ (cs.length : ℤ) - 1 := by
      have hcast : ((cs.length : ℚ) - 1) = (((cs.length : ℤ) - 1 : ℤ) : ℚ) := by
        push_cast; ring
      have hint : ⌊((cs.length : ℚ) - 1)⌋ = (cs.length : ℤ) - 1 := by
        rw [hcast, Int.floor_intCast]
      exact le_trans (Int.floor_le_floor hmul) (le_of_eq hint)
    omega
  omega

theorem get_char_mem (cs : List Char) (h : cs ≠ []) (v : ℚ) :
    get_char cs v ∈ cs := by
  rw [get_char_eq_getD, List.getD_eq_getElem?_getD,
    List.getElem?_eq_getElem (charIndex_lt cs h v)]
  simp only [Option.getD_some]
  exact List.getElem_mem _

theorem getD_of_lt {α : Type} (l : List α) (i : ℕ) (d : α) (h : i < l.length) :
    l.getD i d = l.get ⟨i, h⟩ := by
  rw [List.getD_eq_getElem?_getD, List.getElem?_eq_getElem h]
  rfl

theorem getD_reverse {α : Type} (l : List α) (i : ℕ) (d : α) (h : i < l.length) :
    l.reverse.getD i d = l.getD (l.length - 1 - i) d := by
  have h1 : i < l.reverse.length := by rwa [List.length_reverse]
  have h2 : l.length - 1 - i < l.length := by omega
  rw [getD_of_lt _ _ _ h1, getD_of_lt _ _ _ h2]
  simp only [List.get_eq_getElem]
  exact List.getElem_reverse h1

theorem get_char_congr (cs : List Char) {a b : ℚ} (h : clamp01 a = clamp01 b) :
    get_char cs a = get_char cs b := by
  unfold get_char
  rw [h]

theorem clamp01_idem (v : ℚ) : clamp01 (clamp01 v) = clamp01 v :=
  clamp01_of_mem _ (clamp01_nonneg v) (clamp01_le_one v)

theorem charIndex_of_mem (cs : List Char) (h : cs ≠ []) (v : ℚ) (h0 : 0 ≤ v)
    (h1 : v ≤ 1) :
    charIndex cs v = (⌊v * ((cs.length : ℚ) - 1)⌋).toNat := by
  have hlen : 1 ≤ cs.length := List.length_pos.mpr h
  have hN : (0 : ℚ) ≤ (cs.length : ℚ) - 1 := by
    have : (1 : ℚ) ≤ (cs.length : ℚ) := by exact_mod_cast hlen
    linarith
  unfold charIndex
  rw [clamp01_of_mem v h0 h1, pyTrunc_of_nonneg _ (mul_nonneg h0 hN)]

theorem charIndex_zero (cs : List Char) : charIndex cs 0 = 0 := by
  unfold charIndex
  rw [clamp01_of_mem 0 le_rfl zero_le_one]
  norm_num [pyTrunc]

theorem charIndex_one (cs : List Char) (h : cs ≠ []) :
    charIndex cs 1 = cs.length - 1 := by
  have hlen : 1 ≤ cs.length := List.length_pos.mpr h
  have hN : (0 : ℚ) ≤ (cs.length : ℚ) - 1 := by
    have : (1 : ℚ) ≤ (cs.length : ℚ) := by exact_mod_cast hlen
    linarith
  unfold charIndex
  rw [clamp01_of_mem 1 zero_le_one le_rfl, one_mul, pyTrunc_of_nonneg _ hN]
  have hcast : ((cs.length : ℚ) - 1) = (((cs.length : ℤ) - 1 : ℤ) : ℚ) := by
    push_cast; ring
  rw [hcast, Int.floor_intCast]
  omega

/-- C2: get_char first clamps the brightness to [0, 1] and then indexes the
charset at floor(v * (length - 1)); brightness 0 yields the first character,
brightness 1 the last, and out-of-range brightnesses behave like the
clamped endpoints. -/
theorem C2_get_char_clamp_floor_spec (cs : List Char) (h : cs ≠ []) (v : ℚ) :
    get_char cs v = get_char cs (clamp01 v) ∧
    (0 ≤ v → v ≤ 1 →
      get_char cs v = cs.getD (⌊v * ((cs.length : ℚ) - 1)⌋).toNat ' ') ∧
    get_char cs 0 = cs.head h ∧
    get_char cs 1 = cs.getLast h ∧
    get_char cs (-(1 / 2)) = get_char cs 0 ∧
    get_char cs (3 / 2) = get_char cs 1 := by
  have hlen : 1 ≤ cs.length := List.length_pos.mpr h
  refine ⟨get_char_congr cs (clamp01_idem v).symm, ?_, ?_, ?_, ?_, ?_⟩
  · intro h0 h1
    rw [get_char_eq_getD, charIndex_of_mem cs h v h0 h1]
  · rw [get_char_eq_getD, charIndex_zero,
      getD_of_lt cs 0 ' ' (by omega), List.get_mk_zero]
  · rw [get_char_eq_getD, charIndex_one cs h,
      getD_of_lt cs (cs.length - 1) ' ' (by omega),
      List.getLast_eq_getElem]
    rfl
  · exact get_char_congr cs (by norm_num [clamp01])
  · exact get_char_congr cs (by norm_num [clamp01])

theorem C2_get_char_clamp_floor_spec_witness :
    get_char [' ', '.', '#'] (3 / 2) = get_char [' ', '.', '#'] 1 :=
  (C2_get_char_clamp_floor_spec [' ', '.', '#'] (by decide) (3 / 2)).2.2.2.2.2

/-- C1 counterexample: for the ramp " .#" and v = 1/4, mapBrightness(v)
differs from invert().mapBrightness(1 - v): the original maps to index
floor(1/2) = 0 (the space) while the inverted ramp maps 3/4 to index
floor(3/2) = 1 (the dot), so the claimed identity fails for this v. -/
theorem C1_counterexample :
    get_char [' ', '.', '#'] (1 / 4) ≠ get_char (invert [' ', '.', '#']) (1 - 1 / 4) := by
  have h1 : charIndex [' ', '.', '#'] (1 / 4) = 0 := by
    simp only [charIndex, List.length_cons, List.length_nil]
    norm_num [clamp01, pyTrunc]
  have h2 : charIndex (invert [' ', '.', '#']) (1 - 1 / 4) = 1 := by
    simp only [charIndex, invert, List.reverse_cons, List.reverse_nil,
      List.length_append, List.length_cons, List.length_nil]
    norm_num [clamp01, pyTrunc]
  rw [get_char_eq_getD, get_char_eq_getD, h1, h2]
  decide

/-- C1, amended: the identity mapBrightness(v) = invert().mapBrightness(1-v)
holds exactly when the clamped brightness times (length - 1) is an integer
(in particular at v = 0, v = 1 and at the boundaries i/(N-1)); for other v
the two sides can disagree by one index, as the counterexample shows. -/
theorem C1_invert_map_brightness (cs : List Char) (h : cs ≠ []) (v : ℚ) (k : ℤ)
    (hk : clamp01 v * ((cs.length : ℚ) - 1) = (k : ℚ)) :
    get_char cs v = get_char (invert cs) (1 - v) := by
  have hlen : 1 ≤ cs.length := List.length_pos.mpr h
  have hN : (0 : ℚ) ≤ (cs.length : ℚ) - 1 := by
    have : (1 : ℚ) ≤ (cs.length : ℚ) := by exact_mod_cast hlen
    linarith
  have hb0 := clamp01_nonneg v
  have hb1 := clamp01_le_one v
  have hk0 : (0 : ℤ) ≤ k := by
    have : (0 : ℚ) ≤ (k : ℚ) := hk ▸ mul_nonneg hb0 hN
    exact_mod_cast this
  have hk1 : k ≤ (cs.length : ℤ) - 1 := by
    have hq : (k : ℚ) ≤ (cs.length : ℚ) - 1 := by
      rw [← hk]; nlinarith
    have hcast : ((cs.length : ℚ) - 1) = (((cs.length : ℤ) - 1 : ℤ) : ℚ) := by
      push_cast; ring
    rw [hcast] at hq
    exact_mod_cast hq
  -- index on the original side
  have hidx : charIndex cs v = k.toNat := by
    unfold charIndex
    rw [hk, pyTrunc_of_nonneg _ (by exact_mod_cast hk0), Int.floor_intCast]
  -- index on the inverted side
  have hkinv : clamp01 (1 - v) * (((invert cs).length : ℚ) - 1)
      = (((cs.length : ℤ) - 1 - k : ℤ) : ℚ) := by
    rw [invert, List.length_reverse, clamp01_one_sub]
    push_cast
    nlinarith [hk]
  have hidxinv : charIndex (invert cs) (1 - v) = ((cs.length : ℤ) - 1 - k).toNat := by
    unfold charIndex
    rw [hkinv, pyTrunc_of_nonneg _ (by exact_mod_cast (by omega : (0:ℤ) ≤ (cs.length : ℤ) - 1 - k)),
      Int.floor_intCast]
  rw [get_char_eq_getD, get_char_eq_getD, hidx, hidxinv, invert,
    getD_reverse cs _ ' ' (by omega)]
  congr 1
  omega

theorem C1_invert_map_brightness_witness :
    get_char [' ', '.', '#'] (1 / 2) = get_char (invert [' ', '.', '#']) (1 - 1 / 2) :=
  C1_invert_map_brightness [' ', '.', '#'] (by decide) (1 / 2) 1
    (by simp only [List.length_cons, List.length_nil]; norm_num [clamp01])

end CharacterSet

/-! ## Python strings as character lists

The string-handling code (resolution parsing, grid serialization) is
modelled over lists of characters, with structural-recursive versions of
the Python string operations used by the source. -/

/-- A Python string. -/
abbrev Str := List Char

/-- Python str.lower() (the source only lowercases ASCII strings). -/
def strToLower (s : Str) : Str := s.map Char.toLower

/-- Helper for splitOnChar: accumulates the current piece in reverse. -/
def splitOnCharAux (sep : Char) : Str → Str → List Str
  | [], acc => [acc.reverse]
  | c :: rest, acc =>
      if c = sep then acc.reverse :: splitOnCharAux sep rest []
      else splitOnCharAux sep rest (c :: acc)

/-- Python str.split(sep) for a one-character separator: every occurrence
splits, empty pieces are kept, the empty string gives one empty piece. -/
def splitOnChar (sep : Char) (s : Str) : List Str := splitOnCharAux sep s []

/-- Python str.strip() (for the whitespace characters Lean knows about;
the claims only involve ordinary spaces). -/
def pyStrip (s : Str) : Str :=
  (((s.dropWhile Char.isWhitespace).reverse).dropWhile Char.isWhitespace).reverse

/-- The numeric value of a digit string, none if any character is not an
ASCII digit or the string is empty (accumulator form). -/
def digitsValAux : Option ℕ → Str → Option ℕ
  | acc, [] => acc
  | acc, c :: rest =>
      digitsValAux
        (acc.bind (fun n => if c.isDigit then some (10 * n + (c.toNat - 48)) else none))
        rest

/-- The numeric value of a non-empty all-digit string. -/
def digitsVal (s : Str) : Option ℕ :=
  if s = [] then none else digitsValAux (some 0) s

/-- Model of the Python built-in int(str): optional surrounding whitespace,
an optional single sign, then one or more decimal digits.  (Python
additionally accepts underscores between digits and non-ASCII digits;
nothing in the repository or the claims depends on those.) -/
def pyIntOfStr (s : Str) : Option ℤ :=
  match pyStrip s with
  | '-' :: rest => (digitsVal rest).map (fun n => -(n : ℤ))
  | '+' :: rest => (digitsVal rest).map (fun n => (n : ℤ))
  | l => (digitsVal l).map (fun n => (n : ℤ))

namespace ImageProcessor

/-- image_processor.py, the resolution preset table of parse_resolution. -/
def resolution_presets : List (Str × ℤ × ℤ) :=
  [("8k".data, (7680, 4320)), ("4k".data, (3840, 2160)),
   ("1440p".data, (2560, 1440)), ("1080p".data, (1920, 1080)),
   ("720p".data, (1280, 720)), ("480p".data, (854, 480))]

/-- image_processor.py, ImageProcessor.parse_resolution: look the lowercased
string up in the preset table; otherwise fail unless it contains an "x";
otherwise split the lowercased string on "x", parse the first two pieces as
Python ints, and fail (ValueError, modelled as none) if either does not
parse or is not positive. -/
def parse_resolution (s : Str) : Option (ℤ × ℤ) :=
  match resolution_presets.lookup (strToLower s) with
  | some d => some d
  | none =>
    if (strToLower s).contains 'x' = false then none
    else
      match pyIntOfStr ((splitOnChar 'x' (strToLower s)).getD 0 []),
            pyIntOfStr ((splitOnChar 'x' (strToLower s)).getD 1 []) with
      | some w, some h => if w ≤ 0 ∨ h ≤ 0 then none else some (w, h)
      | _, _ => none

/-- Claim-side definition (from the claim's words, for comparison with the
code): a non-empty all-ASCII-digit string denoting a positive integer. -/
def isPosIntStr (s : Str) : Bool :=
  !s.isEmpty && s.all Char.isDigit && decide (0 < (digitsVal s).getD 0)

/-- Claim-side definition: the string matches the pattern
positive-int, "x" separator (case-insensitive), positive-int — i.e. the
lowercased string splits on "x" into exactly two positive-integer pieces. -/
def matches_claim_pattern (s : Str) : Bool :=
  match splitOnChar 'x' (strToLower s) with
  | [a, b] => isPosIntStr a && isPosIntStr b
  | _ => false

/-- Claim-side definition: the success condition asserted by the claim —
a known named preset (case-insensitive) or the
positive-int x positive-int pattern. -/
def claim_success (s : Str) : Bool :=
  (resolution_presets.lookup (strToLower s)).isSome || matches_claim_pattern s

/-- C5 counterexample: the string "1x2x3" is neither a named preset nor of
the form positive-int x positive-int, yet parse_resolution accepts it and
returns (1, 2): Python splits on every "x" and only reads the first two
pieces, ignoring the rest.  So "succeeds exactly when" fails. -/
theorem C5_counterexample :
    parse_resolution "1x2x3".data = some (1, 2) ∧
    claim_success "1x2x3".data = false := by
  exact ⟨rfl, rfl⟩

theorem parse_resolution_preset (s : Str) (d : ℤ × ℤ)
    (hl : resolution_presets.lookup (strToLower s) = some d) :
    parse_resolution s = some d := by
  unfold parse_resolution
  rw [hl]

theorem parse_resolution_no_x (s : Str)
    (hl : resolution_presets.lookup (strToLower s) = none)
    (hc : (strToLower s).contains 'x' = false) :
    parse_resolution s = none := by
  unfold parse_resolution
  rw [hl, hc]
  rfl

theorem parse_resolution_parts (s : Str)
    (hl : resolution_presets.lookup (strToLower s) = none)
    (hc : (strToLower s).contains 'x' = true) :
    parse_resolution s =
      (match pyIntOfStr ((splitOnChar 'x' (strToLower s)).getD 0 []),
             pyIntOfStr ((splitOnChar 'x' (strToLower s)).getD 1 []) with
       | some w, some h => if w ≤ 0 ∨ h ≤ 0 then none else some (w, h)
       | _, _ => none) := by
  unfold parse_resolution
  rw [hl, hc]
  rfl

/-- C5, amended: parse_resolution succeeds exactly when the string is a
known named preset (case-insensitive), or its lowercased form contains an
"x" and the first two "x"-separated pieces parse as Python integers
(optional surrounding whitespace and sign allowed) that are both positive;
pieces after the second are ignored, so strings such as "1x2x3" also
succeed.  All named presets of the claim map to their standard dimensions,
"1920x1080" and "1920X1080" parse to (1920, 1080), and "invalid" and
"-100x100" fail. -/
theorem C5_parse_resolution_amended :
    (∀ s : Str, (parse_resolution s).isSome = true ↔
      ((resolution_presets.lookup (strToLower s)).isSome = true ∨
        ((strToLower s).contains 'x' = true ∧
          ∃ w h : ℤ, 0 < w ∧ 0 < h ∧
            pyIntOfStr ((splitOnChar 'x' (strToLower s)).getD 0 []) = some w ∧
            pyIntOfStr ((splitOnChar 'x' (strToLower s)).getD 1 []) = some h))) ∧
    parse_resolution "4k".data = some (3840, 2160) ∧
    parse_resolution "8k".data = some (7680, 4320) ∧
    parse_resolution "1440p".data = some (2560, 1440) ∧
    parse_resolution "720p".data = some (1280, 720) ∧
    parse_resolution "480p".data = some (854, 480) ∧
    parse_resolution "1080p".data = some (1920, 1080) ∧
    parse_resolution "1920x1080".data = some (1920, 1080) ∧
    parse_resolution "1920X1080".data = some (1920, 1080) ∧
    parse_resolution "invalid".data = none ∧
    parse_resolution "-100x100".data = none := by
  refine ⟨fun s => ?_, rfl, rfl, rfl, rfl, rfl, rfl, rfl, rfl, rfl, rfl⟩
  rcases hl : resolution_presets.lookup (strToLower s) with _ | d
  · rcases hc : (strToLower s).contains 'x' with _ | _
    · apply iff_of_false
      · rw [parse_resolution_no_x s hl hc]; simp
      · rintro (habs | ⟨habs, -⟩) <;> simp at habs
    · rw [parse_resolution_parts s hl hc]
      rcases hw : pyIntOfStr ((splitOnChar 'x' (strToLower s)).getD 0 []) with _ | w
      · apply iff_of_false
        · simp
        · rintro (habs | ⟨-, wv, hv, -, -, heq, -⟩)
          · simp at habs
          · cases heq
      · rcases hh : pyIntOfStr ((splitOnChar 'x' (strToLower s)).getD 1 []) with _ | h2
        · apply iff_of_false
          · simp
          · rintro (habs | ⟨-, wv, hv, -, -, -, heq⟩)
            · simp at habs
            · cases heq
        · by_cases hpos : w ≤ 0 ∨ h2 ≤ 0
          · apply iff_of_false
            · dsimp only
              rw [if_pos hpos]
              simp
            · rintro (habs | ⟨-, wv, hv, hwv, hhv, heqw, heqh⟩)
              · simp at habs
              · cases heqw; cases heqh
                omega
          · apply iff_of_true
            · dsimp only
              rw [if_neg hpos]
              simp
            · exact Or.inr ⟨rfl, w, h2, by omega, by omega, rfl, rfl⟩
  · rw [parse_resolution_preset s d hl]
    simp

end ImageProcessor

namespace ImageProcessorResize

/-- image_processor.py, the fixed terminal character cell aspect ratio. -/
def CHAR_ASPECT_RATIO : ℚ := 1 / 2

/-- image_processor.py, ImageProcessor.resize_image, dimension part: with
aspect correction the requested height is replaced by
int(target_height * CHAR_ASPECT_RATIO); the PIL resample then returns an
image of exactly (target_width, adjusted_height), which is what this
function computes. -/
def resize_dims (aspect_correct : Bool) (target_width target_height : ℤ) : ℤ × ℤ :=
  let th := if aspect_correct then pyTrunc ((target_height : ℚ) * CHAR_ASPECT_RATIO)
            else target_height
  (target_width, th)

/-- C6 counterexample: for the positive character target (50, 1) with
aspect correction enabled, the computed output height is
int(1 * 0.5) = 0, so the resulting dimensions do not satisfy the claimed
invariant height > 0. -/
theorem C6_counterexample :
    resize_dims true 50 1 = (50, 0) ∧ ¬ (0 < (resize_dims true 50 1).2) := by
  have h : resize_dims true 50 1 = (50, 0) := by
    unfold resize_dims CHAR_ASPECT_RATIO
    norm_num [pyTrunc]
  exact ⟨h, by rw [h]; norm_num⟩

/-- C6, amended: with aspect correction off the image is resampled to
exactly (width, height) and the dimensions stay positive; with aspect
correction on it is resampled to exactly (width, floor(height * 0.5)) with
width unaffected, and the resulting height is positive precisely when the
requested height is at least 2 (for height 1 it is 0, violating the
Dimensions invariant). -/
theorem C6_resize_dims (w h : ℤ) (hw : 1 ≤ w) (hh : 1 ≤ h) :
    resize_dims false w h = (w, h) ∧
    (0 < (resize_dims false w h).1 ∧ 0 < (resize_dims false w h).2) ∧
    resize_dims true w h = (w, h / 2) ∧
    (0 < (resize_dims true w h).1) ∧
    (2 ≤ h → 0 < (resize_dims true w h).2) ∧
    (0 < (resize_dims true w h).2 → 2 ≤ h) := by
  have key : resize_dims true w h = (w, h / 2) := by
    unfold resize_dims CHAR_ASPECT_RATIO
    simp only [if_pos]
    have h1 : (h : ℚ) * (1 / 2) = (h : ℚ) / ((2 : ℕ) : ℚ) := by push_cast; ring
    have h2 : (0 : ℚ) ≤ (h : ℚ) * (1 / 2) := by
      have : (0 : ℚ) ≤ (h : ℚ) := by exact_mod_cast (by omega : (0:ℤ) ≤ h)
      linarith
    rw [pyTrunc_of_nonneg _ h2, h1, Rat.floor_intCast_div_natCast]
    norm_num
  refine ⟨rfl, ⟨by simpa [resize_dims] using hw, by simpa [resize_dims] using hh⟩,
    key, ?_, ?_, ?_⟩
  · simp [resize_dims]; omega
  · intro h2le
    rw [key]; simp; omega
  · rw [key]; simp; omega

theorem C6_resize_dims_witness :
    resize_dims true 50 50 = (50, 25) ∧ resize_dims false 50 50 = (50, 50) := by
  have h := C6_resize_dims 50 50 (by norm_num) (by norm_num)
  exact ⟨h.2.2.1, h.1⟩

end ImageProcessorResize

/-- An RGB triple: numpy uint8 values are carried as integers; where the
code stores into a uint8 array the value is reduced mod 256. -/
abbrev RGB := ℤ × ℤ × ℤ

namespace Renderer

/-- The character at row y, column x of a glyph grid, total via defaults. -/
def cellOf (g : List (List Char)) (y x : ℕ) : Char := (g.getD y []).getD x ' '

/-- renderer.py add_border: one content row with side borders and padding,
[border_char] + [" "]*padding + list(row) + [" "]*padding + [border_char]. -/
def contentRow (c : Char) (p : ℕ) (row : List Char) : List Char :=
  [c] ++ List.replicate p ' ' ++ row ++ List.replicate p ' ' ++ [c]

/-- renderer.py add_border: one padding row,
[border_char] + [" "]*(new_width - 2) + [border_char]. -/
def padRow (c : Char) (nw : ℕ) : List Char :=
  [c] ++ List.replicate (nw - 2) ' ' ++ [c]

/-- renderer.py, add_border, body after the validation checks: top border
row, padding rows, content rows with side borders, padding rows, bottom
border row.  new_width = width + 2 * (padding + 1) with width the length of
the first row. -/
def add_border_core (grid : List (List Char)) (c : Char) (p : ℕ) : List (List Char) :=
  [List.replicate ((grid.headD []).length + 2 * (p + 1)) c]
    ++ List.replicate p (padRow c ((grid.headD []).length + 2 * (p + 1)))
    ++ grid.map (contentRow c p)
    ++ List.replicate p (padRow c ((grid.headD []).length + 2 * (p + 1)))
    ++ [List.replicate ((grid.headD []).length + 2 * (p + 1)) c]

/-- renderer.py, add_border: raises ValueError (modelled as none) when the
grid is empty or its first row is empty, or when padding is negative;
otherwise builds the bordered grid. -/
def add_border (grid : List (List Char)) (c : Char) (padding : ℤ) :
    Option (List (List Char)) :=
  if grid = [] ∨ grid.headD [] = [] then none
  else if padding < 0 then none
  else some (add_border_core grid c padding.toNat)

/-- renderer.py, add_border_to_colors: the numpy color array is modelled by
its (height, width) shape plus the cell function.  The zeros
initialization, the four one-cell border-ring assignments and the final
block copy at offset = padding + 1 are expressed cell-wise; the copy wins
on its block (it is executed last) and never overlaps the ring.  Only a
negative padding is rejected — there is no emptiness check. -/
def add_border_to_colors (height width : ℕ) (grid : ℕ → ℕ → RGB)
    (border_color : RGB) (padding : ℤ) : Option (ℕ × ℕ × (ℕ → ℕ → RGB)) :=
  if padding < 0 then none
  else
    some (height + 2 * (padding.toNat + 1), width + 2 * (padding.toNat + 1), fun y x =>
      if padding.toNat + 1 ≤ y ∧ y < padding.toNat + 1 + height ∧
          padding.toNat + 1 ≤ x ∧ x < padding.toNat + 1 + width then
        grid (y - (padding.toNat + 1)) (x - (padding.toNat + 1))
      else if y = 0 ∨ y = height + 2 * (padding.toNat + 1) - 1 ∨
          x = 0 ∨ x = width + 2 * (padding.toNat + 1) - 1 then
        border_color
      else (0, 0, 0))

theorem getD_replicate {α : Type} (n m : ℕ) (a d : α) (h : m < n) :
    (List.replicate n a).getD m d = a := by
  rw [AsciiBg.CharacterSet.getD_of_lt _ _ _ (by simpa using h)]
  simp

theorem getD_map_of_lt (f : List Char → List Char) (l : List (List Char)) (i : ℕ)
    (hi : i < l.length) :
    (l.map f).getD i [] = f (l.getD i []) := by
  rw [AsciiBg.CharacterSet.getD_of_lt _ _ _ (by simpa using hi),
    AsciiBg.CharacterSet.getD_of_lt _ _ _ hi]
  simp

theorem padRow_getD (c : Char) (nw : ℕ) (h2 : 2 ≤ nw) (x : ℕ) (hx : x < nw) :
    (padRow c nw).getD x ' ' = if x = 0 ∨ x = nw - 1 then c else ' ' := by
  unfold padRow
  simp only [List.append_assoc]
  rcases Nat.eq_zero_or_pos x with h0 | h0
  · subst h0
    rw [List.getD_append _ _ _ _ (by simp)]
    simp
  · rw [List.getD_append_right _ _ _ _
      (by simp only [List.length_cons, List.length_nil]; omega)]
    simp only [List.length_cons, List.length_nil]
    by_cases hmid : x - 1 < nw - 2
    · rw [List.getD_append _ _ _ _ (by simp only [List.length_replicate]; omega)]
      rw [getD_replicate _ _ _ _ hmid, if_neg (by omega)]
    · rw [List.getD_append_right _ _ _ _
        (by simp only [List.length_replicate]; omega)]
      simp only [List.length_replicate]
      have hidx : x - 1 - (nw - 2) = 0 := by omega
      have hlast : x = nw - 1 := by omega
      rw [hidx, if_pos (Or.inr hlast)]
      rfl

theorem contentRow_getD (c : Char) (p : ℕ) (row : List Char) (x : ℕ)
    (hx : x < row.length + 2 * (p + 1)) :
    (contentRow c p row).getD x ' ' =
      if x = 0 ∨ x = row.length + 2 * (p + 1) - 1 then c
      else if p + 1 ≤ x ∧ x < p + 1 + row.length then row.getD (x - (p + 1)) ' '
      else ' ' := by
  unfold contentRow
  simp only [List.append_assoc]
  rcases Nat.eq_zero_or_pos x with h0 | h0
  · subst h0
    rw [List.getD_append _ _ _ _ (by simp)]
    simp
  · rw [List.getD_append_right _ _ _ _
      (by simp only [List.length_cons, List.length_nil]; omega)]
    simp only [List.length_cons, List.length_nil]
    by_cases hpad1 : x - 1 < p
    · rw [List.getD_append _ _ _ _ (by simp only [List.length_replicate]; omega)]
      rw [getD_replicate _ _ _ _ hpad1]
      rw [if_neg (by omega), if_neg (by omega)]
    · rw [List.getD_append_right _ _ _ _
        (by simp only [List.length_replicate]; omega)]
      simp only [List.length_replicate]
      by_cases hrow : x - 1 - p < row.length
      · rw [List.getD_append _ _ _ _ hrow]
        rw [if_neg (by omega), if_pos (by omega)]
        congr 1
        omega
      · rw [List.getD_append_right _ _ _ _ (by omega)]
        by_cases hpad2 : x - 1 - p - row.length < p
        · rw [List.getD_append _ _ _ _ (by simp only [List.length_replicate]; omega)]
          rw [getD_replicate _ _ _ _ hpad2]
          rw [if_neg (by omega), if_neg (by omega)]
        · rw [List.getD_append_right _ _ _ _
            (by simp only [List.length_replicate]; omega)]
          simp only [List.length_replicate]
          rw [if_pos (Or.inr (by omega))]
          have hidx : x - 1 - p - row.length - p = 0 := by omega
          rw [hidx]
          rfl

theorem add_border_core_row (grid : List (List Char)) (c : Char) (p : ℕ)
    (y : ℕ) (hy : y < grid.length + 2 * (p + 1)) :
    (add_border_core grid c p).getD y [] =
      if y = 0 ∨ y = grid.length + 2 * (p + 1) - 1 then
        List.replicate ((grid.headD []).length + 2 * (p + 1)) c
      else if y < p + 1 ∨ p + 1 + grid.length ≤ y then
        padRow c ((grid.headD []).length + 2 * (p + 1))
      else contentRow c p (grid.getD (y - (p + 1)) []) := by
  unfold add_border_core
  simp only [List.append_assoc]
  rcases Nat.eq_zero_or_pos y with h0 | h0
  · subst h0
    rw [List.getD_append _ _ _ _ (by simp)]
    simp
  · rw [List.getD_append_right _ _ _ _
      (by simp only [List.length_cons, List.length_nil]; omega)]
    simp only [List.length_cons, List.length_nil]
    by_cases hpad1 : y - 1 < p
    · rw [List.getD_append _ _ _ _ (by simp only [List.length_replicate]; omega)]
      rw [getD_replicate _ _ _ _ hpad1]
      rw [if_neg (by omega), if_pos (Or.inl (by omega))]
    · rw [List.getD_append_right _ _ _ _
        (by simp only [List.length_replicate]; omega)]
      simp only [List.length_replicate]
      by_cases hrow : y - 1 - p < grid.length
      · rw [List.getD_append _ _ _ _ (by simp only [List.length_map]; omega)]
        rw [getD_map_of_lt _ _ _ hrow]
        rw [if_neg (by omega), if_neg (by omega)]
        have hidx : y - 1 - p = y - (p + 1) := by omega
        rw [hidx]
      · rw [List.getD_append_right _ _ _ _
          (by simp only [List.length_map]; omega)]
        simp only [List.length_map]
        by_cases hpad2 : y - 1 - p - grid.length < p
        · rw [List.getD_append _ _ _ _ (by simp only [List.length_replicate]; omega)]
          rw [getD_replicate _ _ _ _ hpad2]
          rw [if_neg (by omega), if_pos (Or.inr (by omega))]
        · rw [List.getD_append_right _ _ _ _
            (by simp only [List.length_replicate]; omega)]
          simp only [List.length_replicate]
          rw [if_pos (Or.inr (by omega))]
          have hidx : y - 1 - p - grid.length - p = 0 := by omega
          rw [hidx]
          rfl

theorem add_border_core_length (grid : List (List Char)) (c : Char) (p : ℕ) :
    (add_border_core grid c p).length = grid.length + 2 * (p + 1) := by
  simp only [add_border_core, List.length_append, List.length_replicate,
    List.length_map, List.length_cons, List.length_nil]
  omega

theorem add_border_core_row_length (grid : List (List Char)) (c : Char) (p : ℕ)
    (W : ℕ) (hrect : ∀ row ∈ grid, row.length = W)
    (hW : (grid.headD []).length = W) :
    ∀ row ∈ add_border_core grid c p, row.length = W + 2 * (p + 1) := by
  intro row hrow
  unfold add_border_core at hrow
  simp only [List.append_assoc, List.mem_append, List.mem_singleton,
    List.mem_replicate, List.mem_map] at hrow
  rcases hrow with h | ⟨-, h⟩ | ⟨a, ha, h⟩ | ⟨-, h⟩ | h
  · subst h; rw [List.length_replicate, hW]
  · subst h
    simp only [padRow, List.length_append, List.length_replicate,
      List.length_cons, List.length_nil]
    omega
  · subst h
    simp only [contentRow, List.length_append, List.length_replicate,
      List.length_cons, List.length_nil, hrect a ha]
    omega
  · subst h
    simp only [padRow, List.length_append, List.length_replicate,
      List.length_cons, List.length_nil]
    omega
  · subst h; rw [List.length_replicate, hW]

theorem headD_length_of_rect (grid : List (List Char)) (W : ℕ) (hne : grid ≠ [])
    (hrect : ∀ row ∈ grid, row.length = W) : (grid.headD []).length = W := by
  obtain ⟨a, t, rfl⟩ := List.exists_cons_of_ne_nil hne
  exact hrect a (List.mem_cons_self a t)

/-- C7 counterexample: bordering a 1x1 color grid of value (9,9,9) with
border color (255,255,255) and padding 1 succeeds and produces a 5x5 grid
whose padding cell (1,1) (between the ring and the content) is the numpy
zeros value (0,0,0), not the border color as the claim states. -/
theorem C7_counterexample :
    ((add_border_to_colors 1 1 (fun _ _ => (9, 9, 9)) (255, 255, 255) 1).map
        (fun r => r.2.2 1 1)).getD (255, 255, 255) = (0, 0, 0) := by
  rfl

/-- C7, amended: addBorder and addBorderToColors frame the content with a
one-cell ring of borderChar / borderColor and padding rows/columns between
ring and content; the glyph padding cells are spaces, but the color-grid
padding cells are (0,0,0) (the numpy zeros fill), not the border color;
dimensions grow by 2*(padding+1) on each axis and the content sits
unchanged at offset padding+1. -/
theorem C7_add_border_spec (grid : List (List Char)) (c : Char) (p W : ℕ)
    (hne : grid ≠ []) (hW : 1 ≤ W) (hrect : ∀ row ∈ grid, row.length = W) :
    add_border grid c (p : ℤ) = some (add_border_core grid c p) ∧
    (add_border_core grid c p).length = grid.length + 2 * (p + 1) ∧
    (∀ row ∈ add_border_core grid c p, row.length = W + 2 * (p + 1)) ∧
    (∀ y x, y < grid.length + 2 * (p + 1) → x < W + 2 * (p + 1) →
      cellOf (add_border_core grid c p) y x =
        if y = 0 ∨ y = grid.length + 2 * (p + 1) - 1 ∨
            x = 0 ∨ x = W + 2 * (p + 1) - 1 then c
        else if p + 1 ≤ y ∧ y < p + 1 + grid.length ∧
            p + 1 ≤ x ∧ x < p + 1 + W then
          cellOf grid (y - (p + 1)) (x - (p + 1))
        else ' ') ∧
    (∀ (ch cw : ℕ) (cgrid : ℕ → ℕ → RGB) (col : RGB),
      add_border_to_colors ch cw cgrid col (p : ℤ) =
        some (ch + 2 * (p + 1), cw + 2 * (p + 1), fun y x =>
          if y = 0 ∨ y = ch + 2 * (p + 1) - 1 ∨
              x = 0 ∨ x = cw + 2 * (p + 1) - 1 then col
          else if p + 1 ≤ y ∧ y < p + 1 + ch ∧ p + 1 ≤ x ∧ x < p + 1 + cw then
            cgrid (y - (p + 1)) (x - (p + 1))
          else (0, 0, 0))) := by
  have hWhead : (grid.headD []).length = W := headD_length_of_rect grid W hne hrect
  have hglyph : add_border grid c (p : ℤ) = some (add_border_core grid c p) := by
    unfold add_border
    rw [if_neg, if_neg]
    · simp
    · omega
    · push_neg
      constructor
      · exact hne
      · intro habs
        rw [habs] at hWhead
        simp at hWhead
        omega
  refine ⟨hglyph, add_border_core_length grid c p,
    add_border_core_row_length grid c p W hrect hWhead, ?_, ?_⟩
  · intro y x hy hx
    unfold cellOf
    rw [add_border_core_row grid c p y hy, hWhead]
    by_cases hyring : y = 0 ∨ y = grid.length + 2 * (p + 1) - 1
    · rw [if_pos hyring]
      rw [getD_replicate _ _ _ _ hx]
      rw [if_pos (by tauto)]
    · rw [if_neg hyring]
      by_cases hypad : y < p + 1 ∨ p + 1 + grid.length ≤ y
      · rw [if_pos hypad]
        rw [padRow_getD _ _ (by omega) _ hx]
        by_cases hxring : x = 0 ∨ x = W + 2 * (p + 1) - 1
        · rw [if_pos hxring, if_pos (by tauto)]
        · rw [if_neg hxring, if_neg (by tauto), if_neg (by omega)]
      · rw [if_neg hypad]
        have hyin : p + 1 ≤ y ∧ y < p + 1 + grid.length := by omega
        have hmem : grid.getD (y - (p + 1)) [] ∈ grid := by
          rw [CharacterSet.getD_of_lt _ _ _ (by omega)]
          exact List.get_mem grid _ _
        have hlen : (grid.getD (y - (p + 1)) []).length = W :=
          hrect _ hmem
        rw [contentRow_getD _ _ _ _ (by rw [hlen]; omega), hlen]
        by_cases hxring : x = 0 ∨ x = W + 2 * (p + 1) - 1
        · rw [if_pos hxring, if_pos (by tauto)]
        · rw [if_neg hxring]
          by_cases hxin : p + 1 ≤ x ∧ x < p + 1 + W
          · rw [if_pos hxin, if_neg (by tauto), if_pos (by tauto)]
          · rw [if_neg hxin, if_neg (by tauto), if_neg (by tauto)]
  · intro ch cw cgrid col
    unfold add_border_to_colors
    rw [if_neg (by omega)]
    have htn : (p : ℤ).toNat = p := Int.toNat_natCast p
    rw [htn]
    refine congrArg some ?_
    refine congrArg (Prod.mk _) ?_
    refine congrArg (Prod.mk _) ?_
    funext y x
    by_cases hin : p + 1 ≤ y ∧ y < p + 1 + ch ∧ p + 1 ≤ x ∧ x < p + 1 + cw
    · rw [if_pos hin, if_neg (by omega), if_pos hin]
    · rw [if_neg hin]
      by_cases hring : y = 0 ∨ y = ch + 2 * (p + 1) - 1 ∨
          x = 0 ∨ x = cw + 2 * (p + 1) - 1
      · rw [if_pos hring, if_pos hring]
      · rw [if_neg hring, if_neg hring, if_neg hin]

theorem C7_add_border_spec_witness :
    add_border [['a', 'b'], ['c', 'd']] '#' (0 : ℤ) =
      some (add_border_core [['a', 'b'], ['c', 'd']] '#' 0) ∧
    cellOf (add_border_core [['a', 'b'], ['c', 'd']] '#' 0) 0 0 = '#' ∧
    cellOf (add_border_core [['a', 'b'], ['c', 'd']] '#' 0) 1 1 = 'a' := by
  have h := C7_add_border_spec [['a', 'b'], ['c', 'd']] '#' 0 2
    (by decide) (by decide) (by decide)
  refine ⟨by simpa using h.1, ?_, ?_⟩
  · have hc := h.2.2.2.1 0 0 (by decide) (by decide)
    simpa using hc
  · have hc := h.2.2.2.1 1 1 (by decide) (by decide)
    simpa [cellOf] using hc

/-- C8 counterexample: add_border_to_colors accepts an empty (0x0) color
grid with padding 0 and succeeds (returning a pure 2x2 border frame),
whereas the claim says it must fail with ValueError on an empty input
grid. -/
theorem C8_counterexample :
    (add_border_to_colors 0 0 (fun _ _ => (0, 0, 0)) (255, 255, 255) 0).isSome
      = true := by
  rfl

/-- C8, amended: add_border fails with ValueError exactly when the glyph
grid is empty, its first row is empty, or the padding is negative;
add_border_to_colors fails exactly when the padding is negative — it has
no emptiness check and accepts an empty color grid. -/
theorem C8_border_error_conditions :
    (∀ (grid : List (List Char)) (c : Char) (padding : ℤ),
      add_border grid c padding = none ↔
        (grid = [] ∨ grid.headD [] = [] ∨ padding < 0)) ∧
    (∀ (ch cw : ℕ) (cgrid : ℕ → ℕ → RGB) (col : RGB) (padding : ℤ),
      add_border_to_colors ch cw cgrid col padding = none ↔ padding < 0) := by
  constructor
  · intro grid c padding
    unfold add_border
    split_ifs with h1 h2
    · simp only [true_iff]
      tauto
    · simp only [true_iff]
      tauto
    · simp only [reduceCtorEq, false_iff]
      push_neg at h1 ⊢
      exact ⟨h1.1, h1.2, by omega⟩
  · intro ch cw cgrid col padding
    unfold add_border_to_colors
    split_ifs with h1
    · simp [h1]
    · simp [h1]

end Renderer

namespace ColorHandler

/-- color_handler.py, ColorMode. -/
inductive ColorMode
  | BLACK_WHITE
  | SOURCE
  | RAINBOW
  | GRADIENT
  | SOLID
deriving DecidableEq

/-- numpy uint8 storage of a Python int: reduction mod 256 (numpy wraps
out-of-range integers). -/
def u8 (n : ℤ) : ℤ := n % 256

/-- uint8 storage of an RGB triple. -/
def u8c (c : RGB) : RGB := (u8 c.1, u8 c.2.1, u8 c.2.2)

/-- color_handler.py, the ColorHandler configuration object (after
__init__ has substituted the defaults, so gradient_colors is the stored,
non-empty list). -/
structure Handler where
  mode : ColorMode
  bg_color : RGB
  text_color : RGB
  gradient_colors : List RGB
  gradient_direction : Str

/-- color_handler.py, ColorHandler._hsv_to_rgb, verbatim: the s == 0
grayscale case, then i = int(h*6), f = h*6 - i, the p/q/t values,
i = i % 6, the six-way sector dispatch, and int(channel * 255) on the
way out. -/
def hsv_to_rgb (h s v : ℚ) : RGB :=
  if s = 0 then (pyTrunc (v * 255), pyTrunc (v * 255), pyTrunc (v * 255))
  else
    let h6 := h * 6
    let i := pyTrunc h6
    let f := h6 - (i : ℚ)
    let p := v * (1 - s)
    let q := v * (1 - s * f)
    let t := v * (1 - s * (1 - f))
    let i6 := i % 6
    let rgb : ℚ × ℚ × ℚ :=
      if i6 = 0 then (v, t, p)
      else if i6 = 1 then (q, v, p)
      else if i6 = 2 then (p, v, t)
      else if i6 = 3 then (p, q, v)
      else if i6 = 4 then (t, p, v)
      else (v, p, q)
    (pyTrunc (rgb.1 * 255), pyTrunc (rgb.2.1 * 255), pyTrunc (rgb.2.2 * 255))

/-- Claim-side definition (from the claim's words, for comparison with the
code): the standard six-sector HSV to RGB conversion — sector
floor(hue*6) mod 6, fractional part f, the conventional p/q/t formulas,
channels floor(c*255), and the saturation-0 special case returning
(v*255, v*255, v*255). -/
def hsv_std (h s v : ℚ) : RGB :=
  if s = 0 then (⌊v * 255⌋, ⌊v * 255⌋, ⌊v * 255⌋)
  else
    let sector := ⌊h * 6⌋ % 6
    let f := h * 6 - (⌊h * 6⌋ : ℚ)
    let p := v * (1 - s)
    let q := v * (1 - s * f)
    let t := v * (1 - s * (1 - f))
    let rgb : ℚ × ℚ × ℚ :=
      if sector = 0 then (v, t, p)
      else if sector = 1 then (q, v, p)
      else if sector = 2 then (p, v, t)
      else if sector = 3 then (p, q, v)
      else if sector = 4 then (t, p, v)
      else (v, p, q)
    (⌊rgb.1 * 255⌋, ⌊rgb.2.1 * 255⌋, ⌊rgb.2.2 * 255⌋)

theorem hsv_to_rgb_eq_std (h s v : ℚ) (hh : 0 ≤ h) (hs0 : 0 ≤ s) (hs1 : s ≤ 1)
    (hv0 : 0 ≤ v) (hv1 : v ≤ 1) : hsv_to_rgb h s v = hsv_std h s v := by
  unfold hsv_to_rgb hsv_std
  by_cases hs : s = 0
  · rw [if_pos hs, if_pos hs, pyTrunc_of_nonneg _ (by nlinarith)]
  · rw [if_neg hs, if_neg hs]
    dsimp only
    have hi : pyTrunc (h * 6) = ⌊h * 6⌋ := pyTrunc_of_nonneg _ (by nlinarith)
    rw [hi]
    have hf0 : (0 : ℚ) ≤ h * 6 - (⌊h * 6⌋ : ℚ) := by
      have := Int.floor_le (h * 6)
      linarith
    have hf1 : h * 6 - (⌊h * 6⌋ : ℚ) < 1 := by
      have := Int.lt_floor_add_one (h * 6)
      linarith
    set f := h * 6 - (⌊h * 6⌋ : ℚ) with hfdef
    have hp : (0 : ℚ) ≤ v * (1 - s) := by nlinarith
    have hq : (0 : ℚ) ≤ v * (1 - s * f) := by nlinarith
    have ht : (0 : ℚ) ≤ v * (1 - s * (1 - f)) := by nlinarith
    split_ifs <;>
      (simp only [Prod.mk.injEq]
       refine ⟨?_, ?_, ?_⟩ <;>
         (apply pyTrunc_of_nonneg
          nlinarith))

theorem floor255_bounds (c : ℚ) (h0 : 0 ≤ c) (h1 : c ≤ 1) :
    0 ≤ ⌊c * 255⌋ ∧ ⌊c * 255⌋ ≤ 255 := by
  constructor
  · exact Int.floor_nonneg.mpr (by nlinarith)
  · have h255 : ⌊(255 : ℚ)⌋ = 255 := by norm_num
    calc ⌊c * 255⌋ ≤ ⌊(255 : ℚ)⌋ := Int.floor_le_floor (by nlinarith)
    _ = 255 := h255

theorem hsv_std_channel_bounds (h s v : ℚ) (hh : 0 ≤ h) (hs0 : 0 ≤ s)
    (hs1 : s ≤ 1) (hv0 : 0 ≤ v) (hv1 : v ≤ 1) :
    (0 ≤ (hsv_std h s v).1 ∧ (hsv_std h s v).1 ≤ 255) ∧
    (0 ≤ (hsv_std h s v).2.1 ∧ (hsv_std h s v).2.1 ≤ 255) ∧
    (0 ≤ (hsv_std h s v).2.2 ∧ (hsv_std h s v).2.2 ≤ 255) := by
  unfold hsv_std
  by_cases hs : s = 0
  · rw [if_pos hs]
    exact ⟨floor255_bounds v hv0 hv1, floor255_bounds v hv0 hv1,
      floor255_bounds v hv0 hv1⟩
  · rw [if_neg hs]
    dsimp only
    have hf0 : (0 : ℚ) ≤ h * 6 - (⌊h * 6⌋ : ℚ) := by
      have := Int.floor_le (h * 6)
      linarith
    have hf1 : h * 6 - (⌊h * 6⌋ : ℚ) < 1 := by
      have := Int.lt_floor_add_one (h * 6)
      linarith
    have h1f : (0 : ℚ) ≤ 1 - (h * 6 - (⌊h * 6⌋ : ℚ)) := by linarith
    have hsf0 : (0 : ℚ) ≤ s * (h * 6 - (⌊h * 6⌋ : ℚ)) := mul_nonneg hs0 hf0
    have hsf1 : s * (h * 6 - (⌊h * 6⌋ : ℚ)) ≤ 1 := by
      nlinarith [mul_nonneg hs0 h1f]
    have hsg0 : (0 : ℚ) ≤ s * (1 - (h * 6 - (⌊h * 6⌋ : ℚ))) := mul_nonneg hs0 h1f
    have hsg1 : s * (1 - (h * 6 - (⌊h * 6⌋ : ℚ))) ≤ 1 := by
      nlinarith [mul_nonneg hs0 hf0]
    have hp0 : (0 : ℚ) ≤ v * (1 - s) := mul_nonneg hv0 (by linarith)
    have hp1 : v * (1 - s) ≤ 1 := mul_le_one hv1 (by linarith) (by linarith)
    have hq0 : (0 : ℚ) ≤ v * (1 - s * (h * 6 - (⌊h * 6⌋ : ℚ))) :=
      mul_nonneg hv0 (by linarith)
    have hq1 : v * (1 - s * (h * 6 - (⌊h * 6⌋ : ℚ))) ≤ 1 :=
      mul_le_one hv1 (by linarith) (by linarith)
    have ht0 : (0 : ℚ) ≤ v * (1 - s * (1 - (h * 6 - (⌊h * 6⌋ : ℚ)))) :=
      mul_nonneg hv0 (by linarith)
    have ht1 : v * (1 - s * (1 - (h * 6 - (⌊h * 6⌋ : ℚ)))) ≤ 1 :=
      mul_le_one hv1 (by linarith) (by linarith)
    split_ifs <;>
      (dsimp only
       refine ⟨floor255_bounds _ ?_ ?_, floor255_bounds _ ?_ ?_,
         floor255_bounds _ ?_ ?_⟩ <;>
         first
           | exact hv0 | exact hv1 | exact hp0 | exact hp1
           | exact hq0 | exact hq1 | exact ht0 | exact ht1)

theorem u8_of_mem (n : ℤ) (h0 : 0 ≤ n) (h1 : n ≤ 255) : u8 n = n :=
  Int.emod_eq_of_lt h0 (by omega)

theorem u8c_of_mem (c : RGB) (h1 : 0 ≤ c.1 ∧ c.1 ≤ 255)
    (h2 : 0 ≤ c.2.1 ∧ c.2.1 ≤ 255) (h3 : 0 ≤ c.2.2 ∧ c.2.2 ≤ 255) :
    u8c c = c := by
  obtain ⟨a, b, d⟩ := c
  simp only [u8c, u8_of_mem _ h1.1 h1.2, u8_of_mem _ h2.1 h2.2,
    u8_of_mem _ h3.1 h3.2]

/-- color_handler.py, ColorHandler.generate_rainbow_gradient, cell-wise:
the color stored at (y, x) of the uint8 result array, for each of the
three recognized directions; an unrecognized direction leaves the numpy
zeros initialization. -/
def generate_rainbow_gradient (H : Handler) (width height : ℕ) (y x : ℕ) : RGB :=
  if H.gradient_direction = "horizontal".data then
    u8c (hsv_to_rgb ((x : ℚ) / width) 1 1)
  else if H.gradient_direction = "vertical".data then
    u8c (hsv_to_rgb ((y : ℚ) / height) 1 1)
  else if H.gradient_direction = "diagonal".data then
    u8c (hsv_to_rgb (((x : ℚ) + (y : ℚ)) / ((width : ℚ) + (height : ℚ))) 1 1)
  else (0, 0, 0)

theorem u8c_hsv_to_rgb (hue : ℚ) (h0 : 0 ≤ hue) :
    u8c (hsv_to_rgb hue 1 1) = hsv_std hue 1 1 := by
  rw [hsv_to_rgb_eq_std hue 1 1 h0 zero_le_one le_rfl zero_le_one le_rfl]
  obtain ⟨b1, b2, b3⟩ := hsv_std_channel_bounds hue 1 1 h0 zero_le_one le_rfl
    zero_le_one le_rfl
  exact u8c_of_mem _ b1 b2 b3

/-- C4: for every grid cell (y, x) with y < height, x < width, the rainbow
generator assigns the standard HSV-to-RGB conversion (s = 1, v = 1) of hue
x/width (horizontal, identical across rows), y/height (vertical) and
(x+y)/(width+height) (diagonal); and the code's HSV conversion agrees with
the standard 6-sector algorithm (including the s = 0 grayscale case) on
all valid inputs with nonnegative hue. -/
theorem C4_rainbow_spec (H : Handler) (w h : ℕ) (hw : 1 ≤ w) (hh : 1 ≤ h)
    (y x : ℕ) (hy : y < h) (hx : x < w) :
    (H.gradient_direction = "horizontal".data →
      generate_rainbow_gradient H w h y x = hsv_std ((x : ℚ) / w) 1 1 ∧
      (∀ y2 : ℕ, generate_rainbow_gradient H w h y2 x
        = generate_rainbow_gradient H w h y x)) ∧
    (H.gradient_direction = "vertical".data →
      generate_rainbow_gradient H w h y x = hsv_std ((y : ℚ) / h) 1 1) ∧
    (H.gradient_direction = "diagonal".data →
      generate_rainbow_gradient H w h y x
        = hsv_std (((x : ℚ) + (y : ℚ)) / ((w : ℚ) + (h : ℚ))) 1 1) ∧
    (∀ hu s v : ℚ, 0 ≤ hu → 0 ≤ s → s ≤ 1 → 0 ≤ v → v ≤ 1 →
      hsv_to_rgb hu s v = hsv_std hu s v) := by
  have hwq : (0 : ℚ) < (w : ℚ) := by exact_mod_cast hw
  have hhq : (0 : ℚ) < (h : ℚ) := by exact_mod_cast hh
  refine ⟨?_, ?_, ?_, fun hu s v a b c d e => hsv_to_rgb_eq_std hu s v a b c d e⟩
  · intro hdir
    constructor
    · unfold generate_rainbow_gradient
      rw [if_pos hdir]
      exact u8c_hsv_to_rgb _ (div_nonneg (by positivity) (le_of_lt hwq))
    · intro y2
      unfold generate_rainbow_gradient
      rw [if_pos hdir, if_pos hdir]
  · intro hdir
    unfold generate_rainbow_gradient
    rw [if_neg (by rw [hdir]; decide), if_pos hdir]
    exact u8c_hsv_to_rgb _ (div_nonneg (by positivity) (le_of_lt hhq))
  · intro hdir
    unfold generate_rainbow_gradient
    rw [if_neg (by rw [hdir]; decide), if_neg (by rw [hdir]; decide), if_pos hdir]
    exact u8c_hsv_to_rgb _ (div_nonneg (by positivity) (by positivity))

/-- color_handler.py, ColorHandler._interpolate_colors, verbatim: clamp
pos to [0,1], segment_size = 1/(num-1), segment = int(pos/segment_size);
if segment >= num-1 return the last stop; else interpolate channel-wise
between stops[segment] and stops[segment+1] at
local_pos = (pos - segment*segment_size)/segment_size with int() applied
per channel.  (Only called with num >= 2; num = 1 would divide by zero in
Python.) -/
def interpolate_colors (stops : List RGB) (pos : ℚ) : RGB :=
  let num := stops.length
  let pos2 := clamp01 pos
  let segment_size : ℚ := 1 / ((num : ℚ) - 1)
  let segment : ℤ := pyTrunc (pos2 / segment_size)
  if (num : ℤ) - 1 ≤ segment then stops.getLastD (0, 0, 0)
  else
    let local_pos := (pos2 - (segment : ℚ) * segment_size) / segment_size
    let c1 := stops.getD segment.toNat (0, 0, 0)
    let c2 := stops.getD (segment.toNat + 1) (0, 0, 0)
    (pyTrunc ((c1.1 : ℚ) + ((c2.1 : ℚ) - (c1.1 : ℚ)) * local_pos),
     pyTrunc ((c1.2.1 : ℚ) + ((c2.2.1 : ℚ) - (c1.2.1 : ℚ)) * local_pos),
     pyTrunc ((c1.2.2 : ℚ) + ((c2.2.2 : ℚ) - (c1.2.2 : ℚ)) * local_pos))

/-- Claim-side definition (from the claim's words, for comparison with the
code): the segment floor(pos/segment_size) is clamped to N-2 and the cell
color is the channel-wise linear interpolation between that segment's two
endpoint colors at the local fractional position within the segment. -/
def interpolate_colors_spec (stops : List RGB) (pos : ℚ) : RGB :=
  let num := stops.length
  let segment_size : ℚ := 1 / ((num : ℚ) - 1)
  let seg : ℕ := min (⌊pos / segment_size⌋).toNat (num - 2)
  let local_pos := (pos - (seg : ℚ) * segment_size) / segment_size
  let c1 := stops.getD seg (0, 0, 0)
  let c2 := stops.getD (seg + 1) (0, 0, 0)
  (⌊(c1.1 : ℚ) + ((c2.1 : ℚ) - (c1.1 : ℚ)) * local_pos⌋,
   ⌊(c1.2.1 : ℚ) + ((c2.2.1 : ℚ) - (c1.2.1 : ℚ)) * local_pos⌋,
   ⌊(c1.2.2 : ℚ) + ((c2.2.2 : ℚ) - (c1.2.2 : ℚ)) * local_pos⌋)

theorem getLastD_eq_getD (l : List RGB) (d : RGB) (h : l ≠ []) :
    l.getLastD d = l.getD (l.length - 1) d := by
  rw [List.getLastD_eq_getLast?, List.getLast?_eq_getLast l h,
    Option.getD_some, List.getLast_eq_getElem,
    CharacterSet.getD_of_lt _ _ _ (by have := List.length_pos.mpr h; omega)]
  rfl

theorem interpolate_colors_eq_spec (stops : List RGB) (pos : ℚ)
    (hN : 2 ≤ stops.length) (h0 : 0 ≤ pos) (h1 : pos ≤ 1)
    (hnn : ∀ c ∈ stops, 0 ≤ c.1 ∧ 0 ≤ c.2.1 ∧ 0 ≤ c.2.2) :
    interpolate_colors stops pos = interpolate_colors_spec stops pos := by
  have hne : stops ≠ [] := by
    intro habs
    rw [habs] at hN
    simp at hN
  have h2Q : (2 : ℚ) ≤ (stops.length : ℚ) := by exact_mod_cast hN
  have ha1 : (1 : ℚ) ≤ (stops.length : ℚ) - 1 := by linarith
  have ha0 : ((stops.length : ℚ) - 1) ≠ 0 := by linarith
  have hapos : (0 : ℚ) < (stops.length : ℚ) - 1 := by linarith
  have hdiv : pos / (1 / ((stops.length : ℚ) - 1))
      = pos * ((stops.length : ℚ) - 1) := by
    rw [one_div, div_inv_eq_mul]
  have hmul_nn : 0 ≤ pos * ((stops.length : ℚ) - 1) := by nlinarith
  have hmul_le : pos * ((stops.length : ℚ) - 1) ≤ (stops.length : ℚ) - 1 := by
    nlinarith
  have hk0 : 0 ≤ ⌊pos * ((stops.length : ℚ) - 1)⌋ := Int.floor_nonneg.mpr hmul_nn
  have hk1 : ⌊pos * ((stops.length : ℚ) - 1)⌋ ≤ (stops.length : ℤ) - 1 := by
    have hcast : ((stops.length : ℚ) - 1) = (((stops.length : ℤ) - 1 : ℤ) : ℚ) := by
      push_cast; ring
    have hint : ⌊((stops.length : ℚ) - 1)⌋ = (stops.length : ℤ) - 1 := by
      rw [hcast, Int.floor_intCast]
    exact le_trans (Int.floor_le_floor hmul_le) (le_of_eq hint)
  have hTrunc : pyTrunc (clamp01 pos / (1 / ((stops.length : ℚ) - 1)))
      = ⌊pos * ((stops.length : ℚ) - 1)⌋ := by
    rw [clamp01_of_mem pos h0 h1, hdiv, pyTrunc_of_nonneg _ hmul_nn]
  have hfl : ⌊pos / (1 / ((stops.length : ℚ) - 1))⌋
      = ⌊pos * ((stops.length : ℚ) - 1)⌋ := by rw [hdiv]
  have hlocal : ∀ s : ℚ,
      (pos - s * (1 / ((stops.length : ℚ) - 1))) / (1 / ((stops.length : ℚ) - 1))
        = pos * ((stops.length : ℚ) - 1) - s := by
    intro s
    rw [div_eq_iff (by positivity : (1 : ℚ) / ((stops.length : ℚ) - 1) ≠ 0)]
    field_simp
  unfold interpolate_colors interpolate_colors_spec
  dsimp only
  rw [hTrunc, hfl, clamp01_of_mem pos h0 h1]
  by_cases hcase : (stops.length : ℤ) - 1 ≤ ⌊pos * ((stops.length : ℚ) - 1)⌋
  · rw [if_pos hcase]
    have hposval : pos * ((stops.length : ℚ) - 1) = (stops.length : ℚ) - 1 := by
      have hle := Int.floor_le (pos * ((stops.length : ℚ) - 1))
      have hge : ((stops.length : ℚ) - 1)
          ≤ (⌊pos * ((stops.length : ℚ) - 1)⌋ : ℚ) := by
        have : (((stops.length : ℤ) - 1 : ℤ) : ℚ) ≤ (⌊pos * ((stops.length : ℚ) - 1)⌋ : ℚ) := by
          exact_mod_cast hcase
        push_cast at this
        linarith
      linarith
    have hmin : min (⌊pos * ((stops.length : ℚ) - 1)⌋).toNat (stops.length - 2)
        = stops.length - 2 := min_eq_right (by omega)
    rw [hmin]
    have hcast2 : ((stops.length - 2 : ℕ) : ℚ) = (stops.length : ℚ) - 2 := by
      push_cast [hN]
      ring
    rw [hcast2, hlocal, hposval]
    have hone : (stops.length : ℚ) - 1 - ((stops.length : ℚ) - 2) = 1 := by ring
    rw [hone]
    have hidx : stops.length - 2 + 1 = stops.length - 1 := by omega
    rw [hidx]
    rw [getLastD_eq_getD stops (0, 0, 0) hne]
    have hch : ∀ a b : ℤ, (a : ℚ) + ((b : ℚ) - (a : ℚ)) * 1 = (b : ℚ) := by
      intro a b; ring
    rw [hch, hch, hch, Int.floor_intCast, Int.floor_intCast, Int.floor_intCast]
  · rw [if_neg hcase]
    have hklt : ⌊pos * ((stops.length : ℚ) - 1)⌋ ≤ (stops.length : ℤ) - 2 := by
      omega
    have hmin : min (⌊pos * ((stops.length : ℚ) - 1)⌋).toNat (stops.length - 2)
        = (⌊pos * ((stops.length : ℚ) - 1)⌋).toNat := min_eq_left (by omega)
    rw [hmin]
    have hcastk : (((⌊pos * ((stops.length : ℚ) - 1)⌋).toNat : ℕ) : ℚ)
        = ((⌊pos * ((stops.length : ℚ) - 1)⌋ : ℤ) : ℚ) := by
      exact_mod_cast congrArg (fun z : ℤ => (z : ℚ)) (Int.toNat_of_nonneg hk0)
    rw [hcastk, hlocal]
    have ht0 : 0 ≤ pos * ((stops.length : ℚ) - 1)
        - (⌊pos * ((stops.length : ℚ) - 1)⌋ : ℚ) := by
      have := Int.floor_le (pos * ((stops.length : ℚ) - 1))
      linarith
    have ht1 : pos * ((stops.length : ℚ) - 1)
        - (⌊pos * ((stops.length : ℚ) - 1)⌋ : ℚ) ≤ 1 := by
      have := Int.lt_floor_add_one (pos * ((stops.length : ℚ) - 1))
      linarith
    have hmem1 : stops.getD (⌊pos * ((stops.length : ℚ) - 1)⌋).toNat (0, 0, 0) ∈ stops := by
      rw [CharacterSet.getD_of_lt _ _ _ (by omega)]
      exact List.get_mem stops _ _
    have hmem2 : stops.getD ((⌊pos * ((stops.length : ℚ) - 1)⌋).toNat + 1) (0, 0, 0) ∈ stops := by
      rw [CharacterSet.getD_of_lt _ _ _ (by omega)]
      exact List.get_mem stops _ _
    obtain ⟨hc11, hc12, hc13⟩ := hnn _ hmem1
    obtain ⟨hc21, hc22, hc23⟩ := hnn _ hmem2
    have hchan : ∀ a b : ℤ, 0 ≤ a → 0 ≤ b →
        pyTrunc ((a : ℚ) + ((b : ℚ) - (a : ℚ))
          * (pos * ((stops.length : ℚ) - 1) - (⌊pos * ((stops.length : ℚ) - 1)⌋ : ℚ)))
        = ⌊(a : ℚ) + ((b : ℚ) - (a : ℚ))
          * (pos * ((stops.length : ℚ) - 1) - (⌊pos * ((stops.length : ℚ) - 1)⌋ : ℚ))⌋ := by
      intro a b hA hB
      apply pyTrunc_of_nonneg
      have hAq : (0 : ℚ) ≤ (a : ℚ) := by exact_mod_cast hA
      have hBq : (0 : ℚ) ≤ (b : ℚ) := by exact_mod_cast hB
      nlinarith [mul_nonneg hBq ht0, mul_nonneg hAq (by linarith : (0:ℚ) ≤ 1 -
        (pos * ((stops.length : ℚ) - 1) - (⌊pos * ((stops.length : ℚ) - 1)⌋ : ℚ)))]
    rw [hchan _ _ hc11 hc21, hchan _ _ hc12 hc22, hchan _ _ hc13 hc23]

/-- The full 0..255 range condition on a stop list. -/
def stopsInRange (stops : List RGB) : Prop :=
  ∀ c ∈ stops, (0 ≤ c.1 ∧ c.1 ≤ 255) ∧ (0 ≤ c.2.1 ∧ c.2.1 ≤ 255) ∧
    (0 ≤ c.2.2 ∧ c.2.2 ≤ 255)

theorem interpolate_colors_u8 (stops : List RGB) (pos : ℚ)
    (hN : 2 ≤ stops.length) (h0 : 0 ≤ pos) (h1 : pos ≤ 1)
    (hrange : stopsInRange stops) :
    u8c (interpolate_colors stops pos) = interpolate_colors stops pos := by
  have hne : stops ≠ [] := by
    intro habs
    rw [habs] at hN
    simp at hN
  have h2Q : (2 : ℚ) ≤ (stops.length : ℚ) := by exact_mod_cast hN
  have ha1 : (1 : ℚ) ≤ (stops.length : ℚ) - 1 := by linarith
  have hdiv : pos / (1 / ((stops.length : ℚ) - 1))
      = pos * ((stops.length : ℚ) - 1) := by
    rw [one_div, div_inv_eq_mul]
  have hmul_nn : 0 ≤ pos * ((stops.length : ℚ) - 1) := by nlinarith
  have hk0 : 0 ≤ ⌊pos * ((stops.length : ℚ) - 1)⌋ := Int.floor_nonneg.mpr hmul_nn
  have hTrunc : pyTrunc (clamp01 pos / (1 / ((stops.length : ℚ) - 1)))
      = ⌊pos * ((stops.length : ℚ) - 1)⌋ := by
    rw [clamp01_of_mem pos h0 h1, hdiv, pyTrunc_of_nonneg _ hmul_nn]
  have hlocal : ∀ s : ℚ,
      (pos - s * (1 / ((stops.length : ℚ) - 1))) / (1 / ((stops.length : ℚ) - 1))
        = pos * ((stops.length : ℚ) - 1) - s := by
    intro s
    rw [div_eq_iff (by positivity : (1 : ℚ) / ((stops.length : ℚ) - 1) ≠ 0)]
    field_simp
  unfold interpolate_colors
  dsimp only
  rw [hTrunc, clamp01_of_mem pos h0 h1]
  by_cases hcase : (stops.length : ℤ) - 1 ≤ ⌊pos * ((stops.length : ℚ) - 1)⌋
  · rw [if_pos hcase]
    have hmem : stops.getLastD (0, 0, 0) ∈ stops := by
      rw [getLastD_eq_getD stops (0, 0, 0) hne,
        CharacterSet.getD_of_lt _ _ _ (by omega)]
      exact List.get_mem stops _ _
    obtain ⟨b1, b2, b3⟩ := hrange _ hmem
    exact u8c_of_mem _ b1 b2 b3
  · rw [if_neg hcase]
    rw [hlocal]
    have ht0 : 0 ≤ pos * ((stops.length : ℚ) - 1)
        - (⌊pos * ((stops.length : ℚ) - 1)⌋ : ℚ) := by
      have := Int.floor_le (pos * ((stops.length : ℚ) - 1))
      linarith
    have ht1 : pos * ((stops.length : ℚ) - 1)
        - (⌊pos * ((stops.length : ℚ) - 1)⌋ : ℚ) ≤ 1 := by
      have := Int.lt_floor_add_one (pos * ((stops.length : ℚ) - 1))
      linarith
    have hmem1 : stops.getD (⌊pos * ((stops.length : ℚ) - 1)⌋).toNat (0, 0, 0) ∈ stops := by
      rw [CharacterSet.getD_of_lt _ _ _ (by omega)]
      exact List.get_mem stops _ _
    have hmem2 : stops.getD ((⌊pos * ((stops.length : ℚ) - 1)⌋).toNat + 1) (0, 0, 0) ∈ stops := by
      rw [CharacterSet.getD_of_lt _ _ _ (by omega)]
      exact List.get_mem stops _ _
    obtain ⟨hc11, hc12, hc13⟩ := hrange _ hmem1
    obtain ⟨hc21, hc22, hc23⟩ := hrange _ hmem2
    have hchan : ∀ a b : ℤ, 0 ≤ a → a ≤ 255 → 0 ≤ b → b ≤ 255 →
        u8 (pyTrunc ((a : ℚ) + ((b : ℚ) - (a : ℚ))
          * (pos * ((stops.length : ℚ) - 1) - (⌊pos * ((stops.length : ℚ) - 1)⌋ : ℚ))))
        = pyTrunc ((a : ℚ) + ((b : ℚ) - (a : ℚ))
          * (pos * ((stops.length : ℚ) - 1) - (⌊pos * ((stops.length : ℚ) - 1)⌋ : ℚ))) := by
      intro a b hA0 hA1 hB0 hB1
      have hAq0 : (0 : ℚ) ≤ (a : ℚ) := by exact_mod_cast hA0
      have hAq1 : (a : ℚ) ≤ 255 := by exact_mod_cast hA1
      have hBq0 : (0 : ℚ) ≤ (b : ℚ) := by exact_mod_cast hB0
      have hBq1 : (b : ℚ) ≤ 255 := by exact_mod_cast hB1
      have hx0 : (0 : ℚ) ≤ (a : ℚ) + ((b : ℚ) - (a : ℚ))
          * (pos * ((stops.length : ℚ) - 1) - (⌊pos * ((stops.length : ℚ) - 1)⌋ : ℚ)) := by
        nlinarith [mul_nonneg hBq0 ht0, mul_nonneg hAq0 (by linarith : (0:ℚ) ≤ 1 -
          (pos * ((stops.length : ℚ) - 1) - (⌊pos * ((stops.length : ℚ) - 1)⌋ : ℚ)))]
      have hx1 : (a : ℚ) + ((b : ℚ) - (a : ℚ))
          * (pos * ((stops.length : ℚ) - 1) - (⌊pos * ((stops.length : ℚ) - 1)⌋ : ℚ)) ≤ 255 := by
        nlinarith [mul_nonneg (by linarith : (0:ℚ) ≤ 255 - (b : ℚ)) ht0,
          mul_nonneg (by linarith : (0:ℚ) ≤ 255 - (a : ℚ)) (by linarith : (0:ℚ) ≤ 1 -
            (pos * ((stops.length : ℚ) - 1) - (⌊pos * ((stops.length : ℚ) - 1)⌋ : ℚ)))]
      rw [pyTrunc_of_nonneg _ hx0]
      apply u8_of_mem
      · exact Int.floor_nonneg.mpr hx0
      · have h255 : ⌊(255 : ℚ)⌋ = 255 := by norm_num
        calc ⌊(a : ℚ) + ((b : ℚ) - (a : ℚ))
              * (pos * ((stops.length : ℚ) - 1) - (⌊pos * ((stops.length : ℚ) - 1)⌋ : ℚ))⌋
            ≤ ⌊(255 : ℚ)⌋ := Int.floor_le_floor hx1
          _ = 255 := h255
    unfold u8c
    dsimp only
    rw [hchan _ _ hc11.1 hc11.2 hc21.1 hc21.2,
      hchan _ _ hc12.1 hc12.2 hc22.1 hc22.2,
      hchan _ _ hc13.1 hc13.2 hc23.1 hc23.2]

/-- color_handler.py, ColorHandler.generate_custom_gradient, cell-wise:
fewer than 2 stops fill the grid with stops[0]; otherwise each direction
computes its position (normalized by dimension-1, falling back to 0 for a
1-wide axis; diagonal guarded against max_dist = 0) and interpolates; an
unrecognized direction leaves the numpy zeros.  All stores go through the
uint8 cast. -/
def generate_custom_gradient (H : Handler) (width height : ℕ) (y x : ℕ) : RGB :=
  if H.gradient_colors.length < 2 then u8c (H.gradient_colors.getD 0 (0, 0, 0))
  else if H.gradient_direction = "horizontal".data then
    u8c (interpolate_colors H.gradient_colors
      (if 1 < width then (x : ℚ) / ((width : ℚ) - 1) else 0))
  else if H.gradient_direction = "vertical".data then
    u8c (interpolate_colors H.gradient_colors
      (if 1 < height then (y : ℚ) / ((height : ℚ) - 1) else 0))
  else if H.gradient_direction = "diagonal".data then
    u8c (interpolate_colors H.gradient_colors
      (if 0 < width + height - 2 then
        ((x : ℚ) + (y : ℚ)) / ((width : ℚ) + (height : ℚ) - 2) else 0))
  else (0, 0, 0)

/-- color_handler.py, ColorHandler.generate_solid_colors, cell-wise: every
cell is the configured text color (stored through the uint8 cast). -/
def generate_solid_colors (H : Handler) (width height : ℕ) (y x : ℕ) : RGB :=
  u8c H.text_color

theorem axis_pos_mem (n d : ℕ) (hnd : n < d) :
    0 ≤ (if 1 < d then (n : ℚ) / ((d : ℚ) - 1) else 0) ∧
    (if 1 < d then (n : ℚ) / ((d : ℚ) - 1) else 0) ≤ 1 := by
  split_ifs with hd
  · have hdq : (1 : ℚ) < (d : ℚ) := by exact_mod_cast hd
    have hnq : (n : ℚ) ≤ (d : ℚ) - 1 := by
      have : (n : ℚ) + 1 ≤ (d : ℚ) := by exact_mod_cast hnd
      linarith
    constructor
    · exact div_nonneg (by positivity) (by linarith)
    · rw [div_le_one (by linarith)]
      exact hnq
  · norm_num

theorem diag_pos_mem (x y w h : ℕ) (hx : x < w) (hy : y < h) :
    0 ≤ (if 0 < w + h - 2 then
      ((x : ℚ) + (y : ℚ)) / ((w : ℚ) + (h : ℚ) - 2) else 0) ∧
    (if 0 < w + h - 2 then
      ((x : ℚ) + (y : ℚ)) / ((w : ℚ) + (h : ℚ) - 2) else 0) ≤ 1 := by
  split_ifs with hd
  · have hd3 : 3 ≤ w + h := by omega
    have hdq : (3 : ℚ) ≤ (w : ℚ) + (h : ℚ) := by exact_mod_cast hd3
    have hsum : (x : ℚ) + (y : ℚ) ≤ (w : ℚ) + (h : ℚ) - 2 := by
      have hxq : (x : ℚ) + 1 ≤ (w : ℚ) := by exact_mod_cast hx
      have hyq : (y : ℚ) + 1 ≤ (h : ℚ) := by exact_mod_cast hy
      linarith
    constructor
    · exact div_nonneg (by positivity) (by linarith)
    · rw [div_le_one (by linarith)]
      exact hsum
  · norm_num

/-- C3: with a single stop the whole grid is that flat color; with N >= 2
stops each cell's color is the claim's clamped-segment linear
interpolation of the per-direction position (normalized by dimension-1
with the 1-wide fallback, diagonal guarded against division by zero).
Stops are 8-bit colors (channels in 0..255), per the data model. -/
theorem C3_custom_gradient_spec (H : Handler) (w h : ℕ) (hw : 1 ≤ w)
    (hh : 1 ≤ h) (y x : ℕ) (hy : y < h) (hx : x < w)
    (hrange : stopsInRange H.gradient_colors) :
    (H.gradient_colors.length = 1 →
      generate_custom_gradient H w h y x = H.gradient_colors.getD 0 (0, 0, 0)) ∧
    (2 ≤ H.gradient_colors.length →
      (H.gradient_direction = "horizontal".data →
        generate_custom_gradient H w h y x =
          interpolate_colors_spec H.gradient_colors
            (if 1 < w then (x : ℚ) / ((w : ℚ) - 1) else 0)) ∧
      (H.gradient_direction = "vertical".data →
        generate_custom_gradient H w h y x =
          interpolate_colors_spec H.gradient_colors
            (if 1 < h then (y : ℚ) / ((h : ℚ) - 1) else 0)) ∧
      (H.gradient_direction = "diagonal".data →
        generate_custom_gradient H w h y x =
          interpolate_colors_spec H.gradient_colors
            (if 0 < w + h - 2 then
              ((x : ℚ) + (y : ℚ)) / ((w : ℚ) + (h : ℚ) - 2) else 0))) := by
  have hnn : ∀ c ∈ H.gradient_colors, 0 ≤ c.1 ∧ 0 ≤ c.2.1 ∧ 0 ≤ c.2.2 :=
    fun c hc => ⟨(hrange c hc).1.1, (hrange c hc).2.1.1, (hrange c hc).2.2.1⟩
  constructor
  · intro hone
    unfold generate_custom_gradient
    rw [if_pos (by omega)]
    have hmem : H.gradient_colors.getD 0 (0, 0, 0) ∈ H.gradient_colors := by
      rw [CharacterSet.getD_of_lt _ _ _ (by omega)]
      exact List.get_mem _ _ _
    obtain ⟨b1, b2, b3⟩ := hrange _ hmem
    exact u8c_of_mem _ b1 b2 b3
  · intro hN
    have hcombine : ∀ pos : ℚ, 0 ≤ pos → pos ≤ 1 →
        u8c (interpolate_colors H.gradient_colors pos)
          = interpolate_colors_spec H.gradient_colors pos := by
      intro pos p0 p1
      rw [interpolate_colors_u8 _ _ hN p0 p1 hrange,
        interpolate_colors_eq_spec _ _ hN p0 p1 hnn]
    refine ⟨?_, ?_, ?_⟩
    · intro hdir
      unfold generate_custom_gradient
      rw [if_neg (by omega), if_pos hdir]
      obtain ⟨p0, p1⟩ := axis_pos_mem x w hx
      exact hcombine _ p0 p1
    · intro hdir
      unfold generate_custom_gradient
      rw [if_neg (by omega), if_neg (by rw [hdir]; decide), if_pos hdir]
      obtain ⟨p0, p1⟩ := axis_pos_mem y h hy
      exact hcombine _ p0 p1
    · intro hdir
      unfold generate_custom_gradient
      rw [if_neg (by omega), if_neg (by rw [hdir]; decide),
        if_neg (by rw [hdir]; decide), if_pos hdir]
      obtain ⟨p0, p1⟩ := diag_pos_mem x y w h hx hy
      exact hcombine _ p0 p1

theorem C3_custom_gradient_spec_witness :
    generate_custom_gradient
        ⟨ColorMode.GRADIENT, (0, 0, 0), (255, 255, 255),
          [(255, 0, 0), (0, 0, 255)], "horizontal".data⟩ 3 2 0 2
      = interpolate_colors_spec [(255, 0, 0), (0, 0, 255)]
          (if 1 < 3 then ((2 : ℕ) : ℚ) / (((3 : ℕ) : ℚ) - 1) else 0) :=
  ((C3_custom_gradient_spec
    ⟨ColorMode.GRADIENT, (0, 0, 0), (255, 255, 255),
      [(255, 0, 0), (0, 0, 255)], "horizontal".data⟩ 3 2 (by norm_num)
    (by norm_num) 0 2 (by norm_num) (by norm_num)
    (by intro c hc; fin_cases hc <;> norm_num)).2 (by norm_num)).1 rfl

theorem C4_rainbow_spec_witness :
    generate_rainbow_gradient
        ⟨ColorMode.RAINBOW, (0, 0, 0), (255, 255, 255), [], "horizontal".data⟩
        4 4 2 1
      = hsv_std ((1 : ℚ) / 4) 1 1 :=
  (C4_rainbow_spec
    ⟨ColorMode.RAINBOW, (0, 0, 0), (255, 255, 255), [], "horizontal".data⟩
    4 4 (by norm_num) (by norm_num) 2 1 (by norm_num) (by norm_num)).1 rfl |>.1

/-- color_handler.py, reset_color: the ANSI reset escape. -/
def reset_color : Str := "\x1b[0m".data

/-- color_handler.py, rgb_to_ansi: the 24-bit foreground escape
f-string \033[38;2;R;G;Bm, as a character sequence. -/
def rgb_to_ansi (r g b : ℤ) : Str :=
  "\x1b[38;2;".data ++ (toString r).data ++ ";".data ++ (toString g).data
    ++ ";".data ++ (toString b).data ++ "m".data

/-- Python "\n".join over rows of characters. -/
def joinLines : List Str → Str
  | [] => []
  | [r] => r
  | r :: rs => r ++ '\n' :: joinLines rs

theorem mem_joinLines (c : Char) :
    ∀ ls : List Str, c ∈ joinLines ls → c = '\n' ∨ ∃ r ∈ ls, c ∈ r
  | [] => by
      intro h
      simp [joinLines] at h
  | [r] => by
      intro h
      right
      exact ⟨r, by simp, by simpa [joinLines] using h⟩
  | r :: s :: t => by
      intro h
      rw [show joinLines (r :: s :: t) = r ++ '\n' :: joinLines (s :: t) from rfl] at h
      rcases List.mem_append.mp h with hr | htail
      · right
        exact ⟨r, by simp, hr⟩
      · rcases List.mem_cons.mp htail with hnl | hrest
        · left
          exact hnl
        · rcases mem_joinLines c (s :: t) hrest with h1 | ⟨r2, hr2, hcr2⟩
          · left
            exact h1
          · right
            exact ⟨r2, List.mem_cons_of_mem r hr2, hcr2⟩

/-- color_handler.py, ColorHandler.apply_colors: BLACK_WHITE returns the
plain newline-joined grid; otherwise every cell whose coordinates are
inside the color array's shape is wrapped in the color escape and reset,
cells outside are emitted plain; the numpy color array is modelled by its
shape (ch, cw) and cell function. -/
def apply_colors (H : Handler) (char_grid : List Str) (ch cw : ℕ)
    (colors : ℕ → ℕ → RGB) : Str :=
  if H.mode = ColorMode.BLACK_WHITE then joinLines char_grid
  else
    joinLines (char_grid.enum.map (fun yrow =>
      (yrow.2.enum.map (fun xc =>
        if yrow.1 < ch ∧ xc.1 < cw then
          rgb_to_ansi (colors yrow.1 xc.1).1 (colors yrow.1 xc.1).2.1
              (colors yrow.1 xc.1).2.2
            ++ [xc.2] ++ reset_color
        else [xc.2])).flatten))

end ColorHandler

namespace Converter

/-- converter.py, the AsciiArt container: the glyph grid, the color grid
(shape plus cells), the nominal width/height and the optional color
handler. -/
structure AsciiArt where
  char_grid : List Str
  color_height : ℕ
  color_width : ℕ
  colors : ℕ → ℕ → RGB
  width : ℤ
  height : ℤ
  color_handler : Option ColorHandler.Handler

/-- converter.py, AsciiArt.to_plain_text: newline-joined rows. -/
def to_plain_text (art : AsciiArt) : Str := ColorHandler.joinLines art.char_grid

/-- converter.py, AsciiArt.to_colored_text: plain text when no handler is
attached, else ColorHandler.apply_colors on the artifact's grids. -/
def to_colored_text (art : AsciiArt) : Str :=
  match art.color_handler with
  | none => to_plain_text art
  | some H =>
      ColorHandler.apply_colors H art.char_grid art.color_height art.color_width
        art.colors

/-- converter.py, AsciiConverter._generate_color_grid: no handler, SOURCE
mode and BLACK_WHITE (or unknown) mode pass the source RGB array through
unchanged; RAINBOW/GRADIENT/SOLID generate a (height, width) array from the
handler. -/
def generate_color_grid (handler : Option ColorHandler.Handler)
    (rh rw : ℕ) (source_rgb : ℕ → ℕ → RGB) (width height : ℕ) :
    ℕ × ℕ × (ℕ → ℕ → RGB) :=
  match handler with
  | none => (rh, rw, source_rgb)
  | some H =>
    match H.mode with
    | ColorHandler.ColorMode.SOURCE => (rh, rw, source_rgb)
    | ColorHandler.ColorMode.RAINBOW =>
        (height, width, fun y x => ColorHandler.generate_rainbow_gradient H width height y x)
    | ColorHandler.ColorMode.GRADIENT =>
        (height, width, fun y x => ColorHandler.generate_custom_gradient H width height y x)
    | ColorHandler.ColorMode.SOLID =>
        (height, width, fun y x => ColorHandler.generate_solid_colors H width height y x)
    | ColorHandler.ColorMode.BLACK_WHITE => (rh, rw, source_rgb)

/-- converter.py, AsciiConverter.convert, after ImageProcessor.process has
produced the resized grayscale grid and RGB array: glyphs are the charset
applied per luminance cell, the color grid comes from
_generate_color_grid at the actual (post-resize) dimensions, width is
self.resolution[0] and height the actual grid height. -/
def convert_assemble (cs : List Char) (handler : Option ColorHandler.Handler)
    (grayscale : List (List ℚ)) (rh rw : ℕ) (source_rgb : ℕ → ℕ → RGB)
    (resolution_width : ℤ) : AsciiArt :=
  let char_grid := grayscale.map (fun row =>
    row.map (fun b => CharacterSet.get_char cs b))
  let cg := generate_color_grid handler rh rw source_rgb
    (grayscale.headD []).length grayscale.length
  { char_grid := char_grid, color_height := cg.1, color_width := cg.2.1,
    colors := cg.2.2, width := resolution_width,
    height := (grayscale.length : ℤ), color_handler := handler }

/-- Claim-side definition (from the claim's words): the colored rendering —
every cell inside the color grid's bounds is emitted as the true-color
foreground escape ESC[38;2;R;G;Bm immediately before the glyph and ESC[0m
immediately after it, cells outside the bounds are emitted without color
codes, rows joined by newline. -/
def colored_text_spec (art : AsciiArt) : Str :=
  ColorHandler.joinLines (art.char_grid.mapIdx (fun y row =>
    (row.mapIdx (fun x c =>
      if y < art.color_height ∧ x < art.color_width then
        ('\x1b' :: "[38;2;".data) ++ (toString (art.colors y x).1).data ++ [';']
          ++ (toString (art.colors y x).2.1).data ++ [';']
          ++ (toString (art.colors y x).2.2).data ++ ['m'] ++ [c]
          ++ ('\x1b' :: "[0m".data)
      else [c])).flatten))

/-- C9: with no color handler attached, or a black-and-white handler,
to_colored_text is exactly the plain text; otherwise it is the colored
rendering of the claim — ESC[38;2;R;G;Bm before each in-bounds glyph,
ESC[0m after it, out-of-bounds cells plain, rows joined by newline. -/
theorem C9_to_colored_text (art : AsciiArt) :
    (art.color_handler = none → to_colored_text art = to_plain_text art) ∧
    (∀ H, art.color_handler = some H →
      H.mode = ColorHandler.ColorMode.BLACK_WHITE →
      to_colored_text art = to_plain_text art) ∧
    (∀ H, art.color_handler = some H →
      H.mode ≠ ColorHandler.ColorMode.BLACK_WHITE →
      to_colored_text art = colored_text_spec art) := by
  refine ⟨?_, ?_, ?_⟩
  · intro h
    unfold to_colored_text
    rw [h]
  · intro H hH hbw
    unfold to_colored_text
    rw [hH]
    dsimp only
    unfold ColorHandler.apply_colors
    rw [if_pos hbw]
    rfl
  · intro H hH hbw
    unfold to_colored_text
    rw [hH]
    dsimp only
    unfold ColorHandler.apply_colors colored_text_spec
    rw [if_neg hbw]
    refine congrArg ColorHandler.joinLines ?_
    simp only [List.mapIdx_eq_enum_map]
    apply List.map_congr_left
    intro p hp
    dsimp only [Function.uncurry]
    refine congrArg List.flatten ?_
    apply List.map_congr_left
    intro q hq
    dsimp only [Function.uncurry]
    by_cases hb : p.1 < art.color_height ∧ q.1 < art.color_width
    · rw [if_pos hb, if_pos hb]
      unfold ColorHandler.rgb_to_ansi ColorHandler.reset_color
      simp [List.append_assoc]
    · rw [if_neg hb, if_neg hb]

theorem C9_to_colored_text_witness :
    to_colored_text ⟨[['a']], 1, 1, fun _ _ => (1, 2, 3), 1, 1, none⟩
      = to_plain_text ⟨[['a']], 1, 1, fun _ _ => (1, 2, 3), 1, 1, none⟩ ∧
    to_colored_text ⟨[['a']], 1, 1, fun _ _ => (1, 2, 3), 1, 1,
        some ⟨ColorHandler.ColorMode.BLACK_WHITE, (0, 0, 0), (255, 255, 255),
          [(255, 0, 0), (0, 0, 255)], "horizontal".data⟩⟩
      = to_plain_text ⟨[['a']], 1, 1, fun _ _ => (1, 2, 3), 1, 1,
        some ⟨ColorHandler.ColorMode.BLACK_WHITE, (0, 0, 0), (255, 255, 255),
          [(255, 0, 0), (0, 0, 255)], "horizontal".data⟩⟩ ∧
    to_colored_text ⟨[['a']], 1, 1, fun _ _ => (1, 2, 3), 1, 1,
        some ⟨ColorHandler.ColorMode.SOLID, (0, 0, 0), (255, 255, 255),
          [(255, 0, 0), (0, 0, 255)], "horizontal".data⟩⟩
      = colored_text_spec ⟨[['a']], 1, 1, fun _ _ => (1, 2, 3), 1, 1,
        some ⟨ColorHandler.ColorMode.SOLID, (0, 0, 0), (255, 255, 255),
          [(255, 0, 0), (0, 0, 255)], "horizontal".data⟩⟩ :=
  ⟨(C9_to_colored_text _).1 rfl,
   (C9_to_colored_text _).2.1 _ rfl rfl,
   (C9_to_colored_text _).2.2 _ rfl (by decide)⟩

theorem no_esc_in_glyph_lines (cs : List Char) (hcs : cs ≠ [])
    (hesc : '\x1b' ∉ cs) (grayscale : List (List ℚ)) :
    ∀ c ∈ ColorHandler.joinLines (grayscale.map (fun row =>
      row.map (fun b => CharacterSet.get_char cs b))), c ≠ '\x1b' := by
  intro c hc
  rcases ColorHandler.mem_joinLines c _ hc with hnl | ⟨r, hr, hcr⟩
  · rw [hnl]
    decide
  · obtain ⟨qrow, hqrow, rfl⟩ := List.mem_map.mp hr
    obtain ⟨b, hb, rfl⟩ := List.mem_map.mp hcr
    intro habs
    exact hesc (habs ▸ CharacterSet.get_char_mem cs hcs b)

/-- C10: for a conversion with no color handler, or one whose mode is
black-and-white, the artifact's color grid is the source RGB array
unchanged (same shape, same cells), to_colored_text equals to_plain_text
exactly, and (as the glyphs all come from the charset) the output contains
no ANSI escape character when the charset contains none. -/
theorem C10_bw_source_passthrough (cs : List Char) (hcs : cs ≠ [])
    (handler : Option ColorHandler.Handler)
    (hbw : handler = none ∨ ∃ H, handler = some H ∧
      H.mode = ColorHandler.ColorMode.BLACK_WHITE)
    (grayscale : List (List ℚ)) (rh rw : ℕ) (source_rgb : ℕ → ℕ → RGB)
    (resw : ℤ) :
    (convert_assemble cs handler grayscale rh rw source_rgb resw).color_height = rh ∧
    (convert_assemble cs handler grayscale rh rw source_rgb resw).color_width = rw ∧
    (convert_assemble cs handler grayscale rh rw source_rgb resw).colors = source_rgb ∧
    to_colored_text (convert_assemble cs handler grayscale rh rw source_rgb resw)
      = to_plain_text (convert_assemble cs handler grayscale rh rw source_rgb resw) ∧
    ('\x1b' ∉ cs →
      ∀ c ∈ to_colored_text (convert_assemble cs handler grayscale rh rw source_rgb resw),
        c ≠ '\x1b') := by
  have hplain : ∀ art : AsciiArt,
      art.char_grid = grayscale.map (fun row =>
        row.map (fun b => CharacterSet.get_char cs b)) →
      to_colored_text art = to_plain_text art →
      ('\x1b' ∉ cs → ∀ c ∈ to_colored_text art, c ≠ '\x1b') := by
    intro art hgrid heq hesc c hc
    rw [heq] at hc
    unfold to_plain_text at hc
    rw [hgrid] at hc
    exact no_esc_in_glyph_lines cs hcs hesc grayscale c hc
  rcases hbw with rfl | ⟨H, rfl, hmode⟩
  · exact ⟨rfl, rfl, rfl, rfl, hplain _ rfl rfl⟩
  · have hg : generate_color_grid (some H) rh rw source_rgb
        (grayscale.headD []).length grayscale.length = (rh, rw, source_rgb) := by
      unfold generate_color_grid
      dsimp only
      rw [hmode]
    have hca : to_colored_text (convert_assemble cs (some H) grayscale rh rw source_rgb resw)
        = to_plain_text (convert_assemble cs (some H) grayscale rh rw source_rgb resw) := by
      show ColorHandler.apply_colors H _ _ _ _ = _
      unfold ColorHandler.apply_colors
      rw [if_pos hmode]
      rfl
    refine ⟨?_, ?_, ?_, hca, hplain _ rfl hca⟩
    · show (generate_color_grid (some H) rh rw source_rgb
        (grayscale.headD []).length grayscale.length).1 = rh
      rw [hg]
    · show (generate_color_grid (some H) rh rw source_rgb
        (grayscale.headD []).length grayscale.length).2.1 = rw
      rw [hg]
    · show (generate_color_grid (some H) rh rw source_rgb
        (grayscale.headD []).length grayscale.length).2.2 = source_rgb
      rw [hg]

theorem C10_bw_source_passthrough_witness :
    to_colored_text (convert_assemble [' ', '#'] none [[0, 1], [1, 0]] 2 2
        (fun _ _ => (7, 7, 7)) 2)
      = to_plain_text (convert_assemble [' ', '#'] none [[0, 1], [1, 0]] 2 2
        (fun _ _ => (7, 7, 7)) 2) ∧
    (convert_assemble [' ', '#'] none [[0, 1], [1, 0]] 2 2
        (fun _ _ => (7, 7, 7)) 2).colors = (fun _ _ => (7, 7, 7)) := by
  have h := C10_bw_source_passthrough [' ', '#'] (by decide) none (Or.inl rfl)
    [[0, 1], [1, 0]] 2 2 (fun _ _ => (7, 7, 7)) 2
  exact ⟨h.2.2.2.1, h.2.2.1⟩

end Converter

end AsciiBg
